import Mathlib

/-!
# Verification of the claude-switch configuration registry

A shallow embedding of the core of the `claude-switch` repository
(`internal/config/manager.go`, `internal/storage/storage.go`,
`internal/validation` package) in Lean 4, together with theorems settling
the specification claims.

Modelling choices:
* File contents are byte lists (`Bytes`). The byte-level JSON grammar of
  Go's `encoding/json` is abstracted as a parameter `parse : Bytes →
  ParseResult`; a `ParseResult` is either `malformed` or a parsed JSON
  document (`Json`). JSON numbers are modelled as integers, which is
  irrelevant here since no claim inspects numeric values.
* The filesystem is a map from paths to a `FileState`: a present file with
  its bytes, an absent path, or an inaccessible path (a path on which
  `os.Stat` fails with an error other than "not exist", e.g. a permission
  error on a parent directory).
* `os.WriteFile` creates/truncates the destination and then writes; a
  mid-write failure (modelled by the `WriteOutcome.failAfter k` outcome)
  leaves a prefix of the intended bytes at the destination. `os.Rename` is
  atomic and is modelled with a `RenameOutcome`.
* Timestamps (`time.Time`) are modelled by their serialized string form.
-/

/-- Bytes of a file, one natural number per byte. -/
abbrev Bytes := List Nat

/-- JSON documents, as produced by Go's `encoding/json` parser. -/
inductive Json where
  | null : Json
  | bool (b : Bool) : Json
  | num (n : Int) : Json
  | str (s : String) : Json
  | arr (elems : List Json) : Json
  | obj (fields : List (String × Json)) : Json

/-- Outcome of running Go's byte-level JSON parser on some bytes. -/
inductive ParseResult where
  | malformed : ParseResult
  | parsed (j : Json) : ParseResult

/-- Errors of the `internal/validation` package.  The Go code produces two
distinct "not an object" errors: a type error from unmarshalling a
non-object, non-null document into `map[string]interface{}`
(`notAnObjectParse`), and the explicit nil-map check that catches a
top-level `null` (`notAnObjectNull`).  The spec's `NotAnObject` covers
both. -/
inductive ValErr where
  | invalidJSON : ValErr
  | notAnObjectParse : ValErr
  | notAnObjectNull : ValErr
deriving DecidableEq, Repr

/-- The spec's `NotAnObject` class of validation errors. -/
def ValErr.isNotAnObject : ValErr → Bool
  | .invalidJSON => false
  | .notAnObjectParse => true
  | .notAnObjectNull => true

/-- `validation.ValidateJSON`: `json.Unmarshal` into `interface{}` fails
exactly when the bytes do not parse. -/
def ValidateJSON : ParseResult → Option ValErr
  | .malformed => some .invalidJSON
  | .parsed _ => none

/-- `json.Unmarshal` of a parsed document into `map[string]interface{}`:
succeeds on an object (yielding its fields) and on `null` (leaving the map
nil, returned as `none`); fails with a type error otherwise. -/
def unmarshalAsObject : Json → Except ValErr (Option (List (String × Json)))
  | .obj fields => .ok (some fields)
  | .null => .ok none
  | _ => .error .notAnObjectParse

/-- `validation.ValidateClaudeSettings`: first `ValidateJSON`, then
unmarshal into a map and reject a nil map (top-level `null`). -/
def ValidateClaudeSettings (pr : ParseResult) : Option ValErr :=
  match ValidateJSON pr with
  | some e => some e
  | none =>
    match pr with
    | .malformed => some .invalidJSON
    | .parsed j =>
      match unmarshalAsObject j with
      | .error e => some e
      | .ok none => some .notAnObjectNull
      | .ok (some _) => none

/-- Whether a JSON document's top-level value is an object. -/
def Json.isObj : Json → Bool
  | .obj _ => true
  | _ => false

/-- State of one path in the modelled filesystem. -/
inductive FileState where
  | present (data : Bytes) : FileState
  | absent : FileState
  | inaccessible : FileState
deriving DecidableEq, Repr

/-- The filesystem: a map from paths to file states. -/
abbrev FS := String → FileState

/-- I/O errors of the modelled `os` primitives. -/
inductive IOErr where
  | notExist : IOErr
  | permission : IOErr
  | writeFail : IOErr
deriving DecidableEq, Repr

/-- `os.Stat`: `none` on success, otherwise the error. -/
def osStat (fs : FS) (p : String) : Option IOErr :=
  match fs p with
  | .present _ => none
  | .absent => some .notExist
  | .inaccessible => some .permission

/-- `os.IsNotExist` applied to an optional error (`none` is Go's `nil`). -/
def isNotExist : Option IOErr → Bool
  | some .notExist => true
  | _ => false

/-- `os.ReadFile`. -/
def osReadFile (fs : FS) (p : String) : Except IOErr Bytes :=
  match fs p with
  | .present d => .ok d
  | .absent => .error .notExist
  | .inaccessible => .error .permission

/-- Outcome chosen by the environment for one `os.WriteFile` call: either
the write completes, or it fails after `k` bytes have been written (the
file was already created/truncated). -/
inductive WriteOutcome where
  | success : WriteOutcome
  | failAfter (k : Nat) : WriteOutcome
deriving DecidableEq, Repr

/-- `os.WriteFile`: creating/truncating then writing.  Opening an
inaccessible path fails without changing the filesystem; a mid-write
failure leaves a prefix of the data at the destination. -/
def osWriteFile (fs : FS) (p : String) (data : Bytes) :
    WriteOutcome → Option IOErr × FS
  | .success =>
    match fs p with
    | .inaccessible => (some .permission, fs)
    | _ => (none, fun q => if q = p then .present data else fs q)
  | .failAfter k =>
    match fs p with
    | .inaccessible => (some .permission, fs)
    | _ => (some .writeFail, fun q => if q = p then .present (data.take k) else fs q)

/-- `os.Remove`. -/
def osRemove (fs : FS) (p : String) : Option IOErr × FS :=
  match fs p with
  | .present _ => (none, fun q => if q = p then .absent else fs q)
  | .absent => (some .notExist, fs)
  | .inaccessible => (some .permission, fs)

/-- Outcome chosen by the environment for one `os.Rename` call. -/
inductive RenameOutcome where
  | success : RenameOutcome
  | fail : RenameOutcome
deriving DecidableEq, Repr

/-- `os.Rename`: atomic; on success the source's bytes appear at the
destination in a single step and the source vanishes. -/
def osRename (fs : FS) (src dst : String) : RenameOutcome → Option IOErr × FS
  | .success =>
    match fs src with
    | .present d =>
      (none, fun q => if q = dst then .present d else if q = src then .absent else fs q)
    | _ => (some .notExist, fs)
  | .fail => (some .writeFail, fs)

/-- `config.copyFile` (manager.go): a plain read followed by a plain
(non-atomic) `os.WriteFile` of the destination.  On a write failure the
mutated filesystem is kept: a partially written destination remains. -/
def copyFile (fs : FS) (src dst : String) (w : WriteOutcome) : Option IOErr × FS :=
  match osReadFile fs src with
  | .error e => (some e, fs)
  | .ok data => osWriteFile fs dst data w

/-- `storage.FileExists`: true unless `os.Stat` reports "not exist". -/
def FileExists (fs : FS) (p : String) : Bool :=
  !(isNotExist (osStat fs p))

/-- Errors of the `internal/storage` package. -/
inductive StorageErr where
  | sourceNotFound : StorageErr
  | readFailed (e : IOErr) : StorageErr
  | writeFailed (e : IOErr) : StorageErr
deriving DecidableEq, Repr

/-- `storage.AtomicWrite`: write the bytes to a sibling `.tmp` path, then
atomically rename into place; the temporary file is removed if the rename
fails.  (`EnsureDir` is idempotent directory creation, a no-op here.) -/
def AtomicWrite (fs : FS) (p : String) (data : Bytes) (w : WriteOutcome)
    (r : RenameOutcome) : Option IOErr × FS :=
  let tmp := p ++ ".tmp"
  match osWriteFile fs tmp data w with
  | (some e, fs1) => (some e, fs1)
  | (none, fs1) =>
    match osRename fs1 tmp p r with
    | (none, fs2) => (none, fs2)
    | (some e, fs2) => (some e, (osRemove fs2 tmp).2)

/-- `storage.SafeCopy`: existence check on the source, then read, then
`AtomicWrite` to the destination. -/
def SafeCopy (fs : FS) (src dst : String) (w : WriteOutcome)
    (r : RenameOutcome) : Option StorageErr × FS :=
  if !(FileExists fs src) then (some .sourceNotFound, fs)
  else
    match osReadFile fs src with
    | .error e => (some (.readFailed e), fs)
    | .ok data =>
      match AtomicWrite fs dst data w r with
      | (some e, fs1) => (some (.writeFailed e), fs1)
      | (none, fs1) => (none, fs1)

/-- `config.Config` (manager.go): one configuration record.  `CreatedAt`
(`time.Time`) is modelled by its serialized timestamp string. -/
structure Config where
  ID : String
  Name : String
  Description : String
  CreatedAt : String
  FilePath : String
deriving DecidableEq, Repr

/-- `config.Manager`: the storage root and the in-memory record list. -/
structure Manager where
  configDir : String
  configs : List Config
deriving DecidableEq, Repr

/-- The metadata document path `<configDir>/config.json`. -/
def metadataPath (m : Manager) : String :=
  m.configDir ++ "/config.json"

/-- The stored-content path `<configDir>/configs/<id>.json` of a record. -/
def storedPath (m : Manager) (id : String) : String :=
  m.configDir ++ "/configs/" ++ id ++ ".json"

/-- Errors surfaced by the manager's operations. -/
inductive MgrErr where
  | emptyName : MgrErr
  | readFailed (e : IOErr) : MgrErr
  | invalidConfig (e : ValErr) : MgrErr
  | duplicateName (name : String) : MgrErr
  | copyFailed (e : IOErr) : MgrErr
  | saveFailed (e : IOErr) : MgrErr
  | notFound (identifier : String) : MgrErr
  | removeFailed (e : IOErr) : MgrErr
  | backupFailed (e : IOErr) : MgrErr
  | applyFailed (e : IOErr) : MgrErr
deriving DecidableEq, Repr

/-- `validation.ValidateClaudeSettingsFile`: read the file, then run
`ValidateClaudeSettings` on its bytes (`parse` abstracts the byte-level
JSON grammar). -/
def validateFile (parse : Bytes → ParseResult) (fs : FS) (p : String) :
    Option MgrErr :=
  match osReadFile fs p with
  | .error e => some (.readFailed e)
  | .ok data => (ValidateClaudeSettings (parse data)).map .invalidConfig

/-- The single loop of `Manager.GetConfig`: first record whose ID or name
equals the identifier. -/
def findConfig (configs : List Config) (identifier : String) : Option Config :=
  match configs with
  | [] => none
  | c :: rest =>
    if c.ID = identifier ∨ c.Name = identifier then some c
    else findConfig rest identifier

/-- `Manager.GetConfig`: `none` models the `config not found` error. -/
def GetConfig (m : Manager) (identifier : String) : Option Config :=
  findConfig m.configs identifier

/-- `Manager.saveConfigs`: marshal the whole collection (`marshal`
abstracts `json.MarshalIndent`'s byte-level rendering, which no claim
inspects and which cannot fail on these field types) and `os.WriteFile` it
to the metadata path — a plain, non-atomic write. -/
def saveConfigs (marshal : List Config → Bytes) (m : Manager) (fs : FS)
    (w : WriteOutcome) : Option IOErr × FS :=
  osWriteFile fs (metadataPath m) (marshal m.configs) w

/-- Result of `Manager.AddConfig`: the returned value or error, the
manager as it is left in memory, and the filesystem. -/
structure AddResult where
  res : Except MgrErr Config
  mgr : Manager
  fs : FS

/-- `Manager.AddConfig`.  In source order: empty-name check, validation of
the temp file, duplicate-name check, fresh-ID record creation, `copyFile`
of the temp file to the stored path, append to the in-memory list,
`saveConfigs`; on a save failure the stored file is removed (`os.Remove`)
and the error surfaced — the in-memory append is not undone.  `newId` and
`now` stand for `uuid.New().String()` and `time.Now()`; `copyW`/`saveW`
are the environment's outcomes for the two writes. -/
def AddConfig (parse : Bytes → ParseResult) (marshal : List Config → Bytes)
    (m : Manager) (fs : FS) (tempFile name description : String)
    (newId now : String) (copyW saveW : WriteOutcome) : AddResult :=
  if name = "" then ⟨.error .emptyName, m, fs⟩
  else
    match validateFile parse fs tempFile with
    | some e => ⟨.error e, m, fs⟩
    | none =>
      if m.configs.any (fun c => c.Name = name) then
        ⟨.error (.duplicateName name), m, fs⟩
      else
        let cfg : Config := ⟨newId, name, description, now, storedPath m newId⟩
        match copyFile fs tempFile cfg.FilePath copyW with
        | (some e, fs1) => ⟨.error (.copyFailed e), m, fs1⟩
        | (none, fs1) =>
          let m1 : Manager := ⟨m.configDir, m.configs ++ [cfg]⟩
          match saveConfigs marshal m1 fs1 saveW with
          | (none, fs2) => ⟨.ok cfg, m1, fs2⟩
          | (some e, fs2) =>
            ⟨.error (.saveFailed e), m1, (osRemove fs2 cfg.FilePath).2⟩

/-- The copy-in step of `Manager.ApplyConfig` and its failure handling:
copy the record's stored file onto the settings path with the plain
`copyFile`; on failure, if `os.Stat` finds the backup path, best-effort
restore it (result ignored), and surface the apply error either way. -/
def applyCopy (srcPath settingsPath backupPath : String) (fs : FS)
    (applyW restoreW : WriteOutcome) : Option MgrErr × FS :=
  match copyFile fs srcPath settingsPath applyW with
  | (none, fs1) => (none, fs1)
  | (some e, fs1) =>
    match osStat fs1 backupPath with
    | none => (some (.applyFailed e), (copyFile fs1 backupPath settingsPath restoreW).2)
    | some _ => (some (.applyFailed e), fs1)

/-- `Manager.ApplyConfig`: resolve the record, validate its stored file,
back up the settings file (plain `copyFile`) if `os.Stat` says it exists,
then run the copy-in step.  `settingsPath` stands for
`~/.claude/settings.json`; the backup path is it plus `.backup`. -/
def ApplyConfig (parse : Bytes → ParseResult) (m : Manager) (fs : FS)
    (identifier settingsPath : String)
    (backupW applyW restoreW : WriteOutcome) : Option MgrErr × FS :=
  match GetConfig m identifier with
  | none => (some (.notFound identifier), fs)
  | some cfg =>
    match validateFile parse fs cfg.FilePath with
    | some e => (some e, fs)
    | none =>
      let backupPath := settingsPath ++ ".backup"
      match osStat fs settingsPath with
      | none =>
        match copyFile fs settingsPath backupPath backupW with
        | (some e, fs1) => (some (.backupFailed e), fs1)
        | (none, fs1) =>
          applyCopy cfg.FilePath settingsPath backupPath fs1 applyW restoreW
      | some _ =>
        applyCopy cfg.FilePath settingsPath backupPath fs applyW restoreW

/-- The removal loop of `Manager.RemoveConfig`: drop the first record
whose ID matches, keep the rest (the Go loop breaks after one removal). -/
def removeById (configs : List Config) (id : String) : List Config :=
  match configs with
  | [] => []
  | c :: rest => if c.ID = id then rest else c :: removeById rest id

/-- The tail of `Manager.RemoveConfig` after the file deletion: drop the
record from the in-memory list, then persist. -/
def removeFinish (marshal : List Config → Bytes) (m : Manager) (fs : FS)
    (cfg : Config) (saveW : WriteOutcome) : Option MgrErr × Manager × FS :=
  let m1 : Manager := ⟨m.configDir, removeById m.configs cfg.ID⟩
  match saveConfigs marshal m1 fs saveW with
  | (none, fs2) => (none, m1, fs2)
  | (some e, fs2) => (some (.saveFailed e), m1, fs2)

/-- `Manager.RemoveConfig`: resolve the record, `os.Remove` its stored
file tolerating "not exist" (`err != nil && !os.IsNotExist(err)` aborts),
remove it from the in-memory list, persist. -/
def RemoveConfig (marshal : List Config → Bytes) (m : Manager) (fs : FS)
    (identifier : String) (saveW : WriteOutcome) :
    Option MgrErr × Manager × FS :=
  match GetConfig m identifier with
  | none => (some (.notFound identifier), m, fs)
  | some cfg =>
    match osRemove fs cfg.FilePath with
    | (none, fs1) => removeFinish marshal m fs1 cfg saveW
    | (some .notExist, fs1) => removeFinish marshal m fs1 cfg saveW
    | (some e, fs1) => (some (.removeFailed e), m, fs1)

/-- `json.MarshalIndent` of one record, at the JSON-document level: an
object with the five tagged fields, all serialized as strings. -/
def configToJson (c : Config) : Json :=
  .obj [("id", .str c.ID), ("name", .str c.Name),
        ("description", .str c.Description),
        ("created_at", .str c.CreatedAt), ("file_path", .str c.FilePath)]

/-- `json.MarshalIndent` of the whole collection: a JSON array of the
records in order. -/
def marshalConfigsJson (cs : List Config) : Json :=
  .arr (cs.map configToJson)

/-- Key lookup as `json.Unmarshal` performs it on an object: every
occurrence of the key assigns the field, so the last occurrence wins. -/
def lastField (fields : List (String × Json)) (key : String) : Option Json :=
  match fields with
  | [] => none
  | (k, v) :: rest =>
    match lastField rest key with
    | some w => some w
    | none => if k = key then some v else none

/-- Unmarshalling one string-typed struct field: an absent key leaves the
zero value `""`; a present non-string value is a type error. -/
def strField (fields : List (String × Json)) (key : String) : Option String :=
  match lastField fields key with
  | none => some ""
  | some (.str s) => some s
  | some _ => none

/-- `json.Unmarshal` of one record from a JSON document. -/
def unmarshalConfig : Json → Option Config
  | .obj fields =>
    match strField fields "id", strField fields "name",
          strField fields "description", strField fields "created_at",
          strField fields "file_path" with
    | some i, some n, some d, some ca, some fp => some ⟨i, n, d, ca, fp⟩
    | _, _, _, _, _ => none
  | _ => none

/-- `json.Unmarshal` of the collection, as `loadConfigs` performs it on a
parsed metadata document: an array yields the records in order, `null`
leaves the slice nil (empty), anything else is a type error
(`CorruptMetadata`). -/
def unmarshalConfigs : Json → Option (List Config)
  | .arr elems => elems.mapM unmarshalConfig
  | .null => some []
  | _ => none

/-! ## Concrete fixtures used by witnesses and counterexamples -/

/-- The bytes of the two-character document rendering an empty JSON
object. -/
def bObj : Bytes := [123, 125]

/-- A concrete instantiation of the abstract byte-level JSON parser:
`bObj` parses to the empty object, everything else is malformed. -/
def parse0 : Bytes → ParseResult :=
  fun b => if b = bObj then .parsed (.obj []) else .malformed

/-- A concrete instantiation of the abstract metadata byte renderer. -/
def marshal0 : List Config → Bytes := fun _ => [0]

/-- A filesystem with one inaccessible path. -/
def fsLocked : FS := fun p => if p = "locked" then .inaccessible else .absent

/-- A record whose name is the identifier under dispute in the lookup
claims. -/
def cfgN : Config := ⟨"a1", "x", "", "t1", "p1"⟩

/-- A record whose identity is that same identifier. -/
def cfgI : Config := ⟨"x", "b", "", "t2", "p2"⟩

/-- A registry in which an earlier record's name collides with a later
record's identity. -/
def mN : Manager := ⟨"cd", [cfgN, cfgI]⟩

/-- A record named `alpha` stored under the standard layout. -/
def cfgA : Config := ⟨"id-a", "alpha", "", "t0", "cd/configs/id-a.json"⟩

/-- A registry already holding `cfgA`. -/
def mDup : Manager := ⟨"cd", [cfgA]⟩

/-- The empty registry. -/
def mEmpty : Manager := ⟨"cd", []⟩

/-- A filesystem whose `tmp` file holds a valid empty-object document. -/
def fsOk : FS := fun p => if p = "tmp" then .present bObj else .absent

/-- A filesystem whose `tmp` file holds malformed bytes. -/
def fsBad : FS := fun p => if p = "tmp" then .present [1] else .absent

/-- A record named `beta` stored under the standard layout. -/
def cfgB : Config := ⟨"id-b", "beta", "", "t0", "cd/configs/id-b.json"⟩

/-- A registry holding only `cfgB`. -/
def mB : Manager := ⟨"cd", [cfgB]⟩

/-- A filesystem holding exactly `cfgB`'s stored content. -/
def fsB : FS :=
  fun p => if p = "cd/configs/id-b.json" then .present bObj else .absent

/-! ## C4 — validator classification -/

/-- C4: for every parse outcome, a parsed JSON object validates
successfully; parsed non-object JSON (null, array, string, number,
boolean) fails with a `NotAnObject`-class error; bytes that do not parse
fail with `InvalidJSON`. -/
theorem validateClaudeSettings_classification (pr : ParseResult) :
    (∀ fields, pr = .parsed (.obj fields) → ValidateClaudeSettings pr = none) ∧
    (∀ j, pr = .parsed j → j.isObj = false →
      ∃ e, ValidateClaudeSettings pr = some e ∧ e.isNotAnObject = true) ∧
    (pr = .malformed → ValidateClaudeSettings pr = some .invalidJSON) := by
  refine ⟨?_, ?_, ?_⟩
  · rintro fields rfl
    rfl
  · rintro j rfl hobj
    cases j with
    | null => exact ⟨.notAnObjectNull, rfl, rfl⟩
    | bool b => exact ⟨.notAnObjectParse, rfl, rfl⟩
    | num n => exact ⟨.notAnObjectParse, rfl, rfl⟩
    | str s => exact ⟨.notAnObjectParse, rfl, rfl⟩
    | arr xs => exact ⟨.notAnObjectParse, rfl, rfl⟩
    | obj fields => simp [Json.isObj] at hobj
  · rintro rfl
    rfl

/-- Witness for C4 at the empty object, the empty array and malformed
bytes. -/
theorem validateClaudeSettings_classification_witness :
    ValidateClaudeSettings (.parsed (.obj [])) = none ∧
    (∃ e, ValidateClaudeSettings (.parsed (.arr [])) = some e ∧
      e.isNotAnObject = true) ∧
    ValidateClaudeSettings .malformed = some .invalidJSON :=
  ⟨(validateClaudeSettings_classification (.parsed (.obj []))).1 [] rfl,
   (validateClaudeSettings_classification (.parsed (.arr []))).2.1 (.arr []) rfl rfl,
   (validateClaudeSettings_classification .malformed).2.2 rfl⟩

/-! ## C10 — FileExists and SafeCopy on stat failures -/

/-- C10: `FileExists` is false exactly when the stat probe reports "does
not exist"; on a path whose stat fails for any other reason it is true,
so `SafeCopy` from such a source passes the existence check and fails at
the subsequent read, not with `SourceNotFound`. -/
theorem fileExists_stat_and_safeCopy (fs : FS) (p : String) :
    (FileExists fs p = false ↔ fs p = .absent) ∧
    (fs p = .inaccessible →
      FileExists fs p = true ∧
      ∀ dst w r, SafeCopy fs p dst w r = (some (.readFailed .permission), fs)) := by
  constructor
  · cases h : fs p <;>
      simp [FileExists, osStat, isNotExist, h]
  · intro h
    constructor
    · simp [FileExists, osStat, isNotExist, h]
    · intro dst w r
      simp [SafeCopy, FileExists, osStat, isNotExist, osReadFile, h]

/-- Witness for C10 on a concrete filesystem with one inaccessible
path. -/
theorem fileExists_stat_and_safeCopy_witness :
    FileExists fsLocked "locked" = true ∧
    SafeCopy fsLocked "locked" "dst" .success .success
      = (some (.readFailed .permission), fsLocked) :=
  ⟨((fileExists_stat_and_safeCopy fsLocked "locked").2 (by rfl)).1,
   ((fileExists_stat_and_safeCopy fsLocked "locked").2 (by rfl)).2 "dst" .success .success⟩

/-! ## C6 — lookup matching -/

/-- `findConfig` returns `none` exactly when no record's ID or name equals
the identifier. -/
theorem findConfig_eq_none_iff (cs : List Config) (i : String) :
    findConfig cs i = none ↔ ∀ c ∈ cs, c.ID ≠ i ∧ c.Name ≠ i := by
  induction cs with
  | nil => simp [findConfig]
  | cons c rest ih =>
    by_cases h : c.ID = i ∨ c.Name = i
    · simp only [findConfig, if_pos h]
      constructor
      · intro hc
        exact absurd hc (by simp)
      · intro hall
        rcases h with h | h
        · exact absurd h (hall c (by simp)).1
        · exact absurd h (hall c (by simp)).2
    · push_neg at h
      simp only [findConfig, if_neg (by tauto : ¬(c.ID = i ∨ c.Name = i))]
      rw [ih]
      constructor
      · intro hall c' hc'
        rcases List.mem_cons.mp hc' with rfl | hc'
        · exact h
        · exact hall c' hc'
      · intro hall c' hc'
        exact hall c' (List.mem_cons_of_mem _ hc')

/-- C6 counterexample: in a registry where an earlier record's *name*
equals the identifier and a later record's *identity* equals it, `get`
returns the earlier record — the identity match does not take
precedence. -/
theorem getConfig_no_id_priority_counterexample :
    GetConfig mN "x" = some cfgN ∧ cfgN.ID ≠ "x" ∧
    cfgI.ID = "x" ∧ cfgI ∈ mN.configs ∧ cfgN ≠ cfgI := by
  refine ⟨rfl, by decide, rfl, by simp [mN], by decide⟩

/-- C6 amended: `get` scans the collection once in order, returning the
first record whose identity *or* name equals the identifier (no identity
priority across records), and fails with `NotFound` exactly when no
record's identity or name matches. -/
theorem getConfig_first_match (m : Manager) (i : String) :
    (GetConfig m i = none ↔ ∀ c ∈ m.configs, c.ID ≠ i ∧ c.Name ≠ i) ∧
    (∀ pre c post, m.configs = pre ++ c :: post →
      (∀ c' ∈ pre, c'.ID ≠ i ∧ c'.Name ≠ i) →
      (c.ID = i ∨ c.Name = i) →
      GetConfig m i = some c) := by
  constructor
  · exact findConfig_eq_none_iff m.configs i
  · intro pre c post hsplit hpre hc
    show findConfig m.configs i = some c
    rw [hsplit]
    clear hsplit
    induction pre with
    | nil => simp [findConfig, if_pos hc]
    | cons p rest ih =>
      have hp := hpre p (by simp)
      have : ¬(p.ID = i ∨ p.Name = i) := by tauto
      simp only [List.cons_append, findConfig, if_neg this]
      exact ih (fun c' hc' => hpre c' (List.mem_cons_of_mem _ hc'))

/-- Witness for the amended C6 on the two-record registry: the first
matching record is returned. -/
theorem getConfig_first_match_witness : GetConfig mN "x" = some cfgN :=
  (getConfig_first_match mN "x").2 [] cfgN [cfgI] rfl (by simp) (Or.inr rfl)

/-! ## C9 — metadata round-trip -/

/-- Unmarshalling the marshalled document of one record reproduces the
record. -/
theorem unmarshalConfig_configToJson (c : Config) :
    unmarshalConfig (configToJson c) = some c := rfl

/-- C9: persisting the metadata document (marshalling the collection) and
reloading it (unmarshalling, as on process restart) reproduces the same
records, in the same order, with all fields preserved. -/
theorem metadata_roundtrip (cs : List Config) :
    unmarshalConfigs (marshalConfigsJson cs) = some cs := by
  induction cs with
  | nil => rfl
  | cons c rest ih =>
    simp only [marshalConfigsJson, unmarshalConfigs, List.map_cons,
      List.mapM_cons, unmarshalConfig_configToJson, Option.pure_def,
      Option.bind_eq_bind, Option.some_bind]
    simp only [marshalConfigsJson, unmarshalConfigs] at ih
    rw [ih, Option.some_bind]

/-! ## C5 — duplicate names -/

/-- C5 counterexample: with malformed content *and* a duplicate name, add
returns the validation error, not `DuplicateName` — the duplicate-name
check does not precede content validation. -/
theorem addConfig_duplicate_after_validation_counterexample :
    (AddConfig parse0 marshal0 mDup fsBad "tmp" "alpha" "" "f" "t"
        .success .success).res = .error (.invalidConfig .invalidJSON) ∧
    mDup.configs.any (fun c => c.Name = "alpha") = true ∧
    (AddConfig parse0 marshal0 mDup fsBad "tmp" "alpha" "" "f" "t"
        .success .success).res ≠ .error (.duplicateName "alpha") := by
  refine ⟨rfl, rfl, ?_⟩
  intro h
  rw [show (AddConfig parse0 marshal0 mDup fsBad "tmp" "alpha" "" "f" "t"
      .success .success).res = .error (.invalidConfig .invalidJSON) from rfl] at h
  simp at h

/-- C5 amended: when the supplied content is readable and valid, an add
whose name equals an existing record's name fails with `DuplicateName`
and leaves the collection and the filesystem unchanged; content
validation precedes the duplicate-name check, so with invalid content the
validator's error is returned instead. -/
theorem addConfig_duplicate_name (parse : Bytes → ParseResult)
    (marshal : List Config → Bytes) (m : Manager) (fs : FS)
    (tempFile name description newId now : String) (copyW saveW : WriteOutcome)
    (hname : ¬(name = ""))
    (hval : validateFile parse fs tempFile = none)
    (hdup : m.configs.any (fun c => c.Name = name) = true) :
    AddConfig parse marshal m fs tempFile name description newId now copyW saveW
      = ⟨.error (.duplicateName name), m, fs⟩ := by
  unfold AddConfig
  rw [if_neg hname, hval, if_pos hdup]

/-- Witness for the amended C5: adding a second `alpha` with valid content
fails with `DuplicateName` and changes nothing. -/
theorem addConfig_duplicate_name_witness :
    AddConfig parse0 marshal0 mDup fsOk "tmp" "alpha" "" "f" "t"
        .success .success = ⟨.error (.duplicateName "alpha"), mDup, fsOk⟩ :=
  addConfig_duplicate_name parse0 marshal0 mDup fsOk "tmp" "alpha" "" "f" "t"
    .success .success (by decide) rfl rfl

/-! ## C7 — empty names -/

/-- C7 counterexample: a whitespace-only name is not blank in the eyes of
the code (`name == ""` is checked without trimming): the add succeeds and
creates a record named `" "` instead of failing with `EmptyName`. -/
theorem addConfig_whitespace_name_counterexample :
    " ".toList.all Char.isWhitespace = true ∧ " " ≠ "" ∧
    (AddConfig parse0 marshal0 mEmpty fsOk "tmp" " " "" "f" "t"
        .success .success).res
      = .ok ⟨"f", " ", "", "t", "cd/configs/f.json"⟩ := by
  exact ⟨by decide, by decide, rfl⟩

/-- C7 amended: add fails with `EmptyName` exactly for the literally empty
name (no whitespace trimming in the registry), creating no record and
writing no file. -/
theorem addConfig_empty_name (parse : Bytes → ParseResult)
    (marshal : List Config → Bytes) (m : Manager) (fs : FS)
    (tempFile description newId now : String) (copyW saveW : WriteOutcome) :
    AddConfig parse marshal m fs tempFile "" description newId now copyW saveW
      = ⟨.error .emptyName, m, fs⟩ := by
  unfold AddConfig
  rw [if_pos rfl]

/-! ## Helper lemmas about the I/O primitives -/

/-- A completed `os.WriteFile` on a writable path installs the bytes. -/
theorem osWriteFile_success_eq (fs : FS) (p : String) (data : Bytes)
    (h : fs p ≠ .inaccessible) :
    osWriteFile fs p data .success
      = (none, fun q => if q = p then .present data else fs q) := by
  cases hh : fs p with
  | present d => simp [osWriteFile, hh]
  | absent => simp [osWriteFile, hh]
  | inaccessible => exact absurd hh h

/-- A mid-write failure of `os.WriteFile` on a writable path reports an
error and leaves a prefix of the bytes at the destination. -/
theorem osWriteFile_failAfter_eq (fs : FS) (p : String) (data : Bytes) (k : Nat)
    (h : fs p ≠ .inaccessible) :
    osWriteFile fs p data (.failAfter k)
      = (some .writeFail, fun q => if q = p then .present (data.take k) else fs q) := by
  cases hh : fs p with
  | present d => simp [osWriteFile, hh]
  | absent => simp [osWriteFile, hh]
  | inaccessible => exact absurd hh h

/-- `os.Remove` of a present file deletes it. -/
theorem osRemove_present_eq (fs : FS) (p : String) (d : Bytes)
    (h : fs p = .present d) :
    osRemove fs p = (none, fun q => if q = p then .absent else fs q) := by
  simp [osRemove, h]

/-- A fully successful `copyFile` installs the source bytes at the
destination. -/
theorem copyFile_success_eq (fs : FS) (src dst : String) (data : Bytes)
    (hr : osReadFile fs src = .ok data) (hd : fs dst ≠ .inaccessible) :
    copyFile fs src dst .success
      = (none, fun q => if q = dst then .present data else fs q) := by
  unfold copyFile
  rw [hr]
  exact osWriteFile_success_eq fs dst data hd

/-- A `copyFile` whose write fails mid-way reports an error and leaves a
prefix of the source bytes at the destination. -/
theorem copyFile_failAfter_eq (fs : FS) (src dst : String) (data : Bytes) (k : Nat)
    (hr : osReadFile fs src = .ok data) (hd : fs dst ≠ .inaccessible) :
    copyFile fs src dst (.failAfter k)
      = (some .writeFail, fun q => if q = dst then .present (data.take k) else fs q) := by
  unfold copyFile
  rw [hr]
  exact osWriteFile_failAfter_eq fs dst data k hd

/-- A file whose validation succeeded was readable, and its bytes
validate. -/
theorem validateFile_ok_read (parse : Bytes → ParseResult) (fs : FS) (p : String)
    (h : validateFile parse fs p = none) :
    ∃ data, osReadFile fs p = .ok data ∧
      ValidateClaudeSettings (parse data) = none := by
  unfold validateFile at h
  cases hh : osReadFile fs p with
  | error e => rw [hh] at h; simp at h
  | ok d =>
    rw [hh] at h
    simp only [Option.map_eq_none'] at h
    exact ⟨d, rfl, h⟩

/-! ## C1 — add rollback on persistence failure -/

/-- C1 counterexample: when persisting the metadata fails after the stored
file was written, the error is surfaced and the file removed, but the
in-memory collection still contains the new record — the pre-call state is
not restored. -/
theorem addConfig_save_failure_counterexample :
    (AddConfig parse0 marshal0 mEmpty fsOk "tmp" "n" "" "f" "t"
        .success (.failAfter 0)).res = .error (.saveFailed .writeFail) ∧
    (AddConfig parse0 marshal0 mEmpty fsOk "tmp" "n" "" "f" "t"
        .success (.failAfter 0)).mgr.configs
      = [⟨"f", "n", "", "t", "cd/configs/f.json"⟩] ∧
    mEmpty.configs = [] ∧
    (AddConfig parse0 marshal0 mEmpty fsOk "tmp" "n" "" "f" "t"
        .success (.failAfter 0)).fs "cd/configs/f.json" = .absent :=
  ⟨rfl, rfl, rfl, rfl⟩

/-- C1 amended: on persistence failure the just-created stored file is
removed and the error surfaced, and every path other than the stored file
and the metadata file is untouched — but the in-memory collection retains
the appended record (and the metadata file on disk may hold a partial
write). -/
theorem addConfig_save_failure (parse : Bytes → ParseResult)
    (marshal : List Config → Bytes) (m : Manager) (fs : FS)
    (tempFile name description newId now : String) (k : Nat)
    (hname : ¬(name = ""))
    (hval : validateFile parse fs tempFile = none)
    (hdup : m.configs.any (fun c => c.Name = name) = false)
    (hsp : fs (storedPath m newId) ≠ .inaccessible)
    (hne : storedPath m newId ≠ metadataPath m)
    (hmp : fs (metadataPath m) ≠ .inaccessible) :
    (AddConfig parse marshal m fs tempFile name description newId now
        .success (.failAfter k)).res = .error (.saveFailed .writeFail) ∧
    (AddConfig parse marshal m fs tempFile name description newId now
        .success (.failAfter k)).mgr.configs
      = m.configs ++ [⟨newId, name, description, now, storedPath m newId⟩] ∧
    (AddConfig parse marshal m fs tempFile name description newId now
        .success (.failAfter k)).fs (storedPath m newId) = .absent ∧
    ∀ q, q ≠ storedPath m newId → q ≠ metadataPath m →
      (AddConfig parse marshal m fs tempFile name description newId now
          .success (.failAfter k)).fs q = fs q := by
  obtain ⟨data, hread, hv⟩ := validateFile_ok_read parse fs tempFile hval
  have hdupP : ¬(m.configs.any (fun c => c.Name = name) = true) := by
    simp [hdup]
  have hcopy := copyFile_success_eq fs tempFile (storedPath m newId) data hread hsp
  have hmpEq : ∀ cs : List Config, metadataPath ⟨m.configDir, cs⟩ = metadataPath m :=
    fun cs => rfl
  have hsave := osWriteFile_failAfter_eq
    (fun q => if q = storedPath m newId then FileState.present data else fs q)
    (metadataPath m)
    (marshal (m.configs ++ [⟨newId, name, description, now, storedPath m newId⟩])) k
    (by
      show (if metadataPath m = storedPath m newId then FileState.present data
            else fs (metadataPath m)) ≠ .inaccessible
      rw [if_neg fun h => hne h.symm]
      exact hmp)
  have hrem := osRemove_present_eq
    (fun q => if q = metadataPath m
      then FileState.present
        ((marshal (m.configs ++ [⟨newId, name, description, now,
          storedPath m newId⟩])).take k)
      else if q = storedPath m newId then FileState.present data else fs q)
    (storedPath m newId) data
    (by
      show (if storedPath m newId = metadataPath m
            then FileState.present
              ((marshal (m.configs ++ [⟨newId, name, description, now,
                storedPath m newId⟩])).take k)
            else if storedPath m newId = storedPath m newId
              then FileState.present data
              else fs (storedPath m newId)) = FileState.present data
      rw [if_neg hne, if_pos rfl])
  refine ⟨?_, ?_, ?_, ?_⟩
  · simp only [AddConfig, if_neg hname, hval, if_neg hdupP, hcopy,
      saveConfigs, hmpEq, hsave, hrem]
  · simp only [AddConfig, if_neg hname, hval, if_neg hdupP, hcopy,
      saveConfigs, hmpEq, hsave, hrem]
  · simp only [AddConfig, if_neg hname, hval, if_neg hdupP, hcopy,
      saveConfigs, hmpEq, hsave, hrem]
    simp
  · intro q hq1 hq2
    simp only [AddConfig, if_neg hname, hval, if_neg hdupP, hcopy,
      saveConfigs, hmpEq, hsave, hrem]
    simp [if_neg hq1, if_neg hq2]

/-- Witness for the amended C1 at a concrete failing save. -/
theorem addConfig_save_failure_witness :
    (AddConfig parse0 marshal0 mEmpty fsOk "tmp" "n" "" "f" "t"
        .success (.failAfter 0)).res = .error (.saveFailed .writeFail) ∧
    (AddConfig parse0 marshal0 mEmpty fsOk "tmp" "n" "" "f" "t"
        .success (.failAfter 0)).mgr.configs
      = mEmpty.configs ++ [⟨"f", "n", "", "t", storedPath mEmpty "f"⟩] ∧
    (AddConfig parse0 marshal0 mEmpty fsOk "tmp" "n" "" "f" "t"
        .success (.failAfter 0)).fs (storedPath mEmpty "f") = .absent ∧
    (AddConfig parse0 marshal0 mEmpty fsOk "tmp" "n" "" "f" "t"
        .success (.failAfter 0)).fs "tmp" = fsOk "tmp" :=
  have h := addConfig_save_failure parse0 marshal0 mEmpty fsOk "tmp" "n" "" "f" "t" 0
    (by decide) rfl rfl (by decide) (by decide) (by decide)
  ⟨h.1, h.2.1, h.2.2.1, h.2.2.2 "tmp" (by decide) (by decide)⟩

/-! ## C2 — the apply copy step is not atomic -/

/-- C2 counterexample: applying to an absent target with a mid-write
failure leaves a partially written target file — one byte of the record's
two-byte content — where no file existed before.  The copy step is the
plain `copyFile`, not the temp-and-rename `SafeCopy`. -/
theorem applyConfig_partial_write_counterexample :
    fsB "settings.json" = .absent ∧
    (ApplyConfig parse0 mB fsB "beta" "settings.json"
        .success (.failAfter 1) .success).1 = some (.applyFailed .writeFail) ∧
    (ApplyConfig parse0 mB fsB "beta" "settings.json"
        .success (.failAfter 1) .success).2 "settings.json" = .present [123] ∧
    [123] = bObj.take 1 ∧ [123] ≠ bObj :=
  ⟨rfl, rfl, rfl, rfl, by decide⟩

/-- C2 amended: the copy of the record's content onto the target is the
plain read-then-write `copyFile` (not `safeCopy`): a mid-write failure
overwrites the target with a partial prefix of the record's content; the
code then best-effort restores the backup onto the target when `os.Stat`
finds one, and surfaces the original apply error. -/
theorem applyConfig_plain_copy (parse : Bytes → ParseResult) (m : Manager)
    (fs : FS) (identifier settingsPath : String) (cfg : Config)
    (data old : Bytes) (k : Nat)
    (hget : GetConfig m identifier = some cfg)
    (hstored : fs cfg.FilePath = .present data)
    (hval : validateFile parse fs cfg.FilePath = none)
    (hsettings : fs settingsPath = .present old)
    (hbp : fs (settingsPath ++ ".backup") ≠ .inaccessible)
    (hne2 : cfg.FilePath ≠ settingsPath ++ ".backup")
    (hne3 : settingsPath ≠ settingsPath ++ ".backup") :
    (ApplyConfig parse m fs identifier settingsPath
        .success (.failAfter k) .success).1 = some (.applyFailed .writeFail) ∧
    (copyFile
        (fun q => if q = settingsPath ++ ".backup" then FileState.present old
          else fs q)
        cfg.FilePath settingsPath (.failAfter k)).2 settingsPath
      = .present (data.take k) ∧
    (ApplyConfig parse m fs identifier settingsPath
        .success (.failAfter k) .success).2 settingsPath = .present old ∧
    (ApplyConfig parse m fs identifier settingsPath
        .success (.failAfter k) .success).2 (settingsPath ++ ".backup")
      = .present old := by
  have hstat : osStat fs settingsPath = none := by
    simp [osStat, hsettings]
  have hreadS : osReadFile fs settingsPath = .ok old := by
    simp [osReadFile, hsettings]
  have hbackup := copyFile_success_eq fs settingsPath (settingsPath ++ ".backup")
    old hreadS hbp
  have hread1 : osReadFile
      (fun q => if q = settingsPath ++ ".backup" then FileState.present old
        else fs q) cfg.FilePath = .ok data := by
    unfold osReadFile
    simp only [if_neg hne2, hstored]
  have hw1 : (fun q => if q = settingsPath ++ ".backup" then FileState.present old
      else fs q) settingsPath ≠ FileState.inaccessible := by
    show (if settingsPath = settingsPath ++ ".backup" then FileState.present old
      else fs settingsPath) ≠ FileState.inaccessible
    rw [if_neg hne3, hsettings]
    simp
  have hcopy2 := copyFile_failAfter_eq
    (fun q => if q = settingsPath ++ ".backup" then FileState.present old
      else fs q)
    cfg.FilePath settingsPath data k hread1 hw1
  have hbpval : (fun q => if q = settingsPath then FileState.present (data.take k)
      else if q = settingsPath ++ ".backup" then FileState.present old else fs q)
      (settingsPath ++ ".backup") = FileState.present old := by
    show (if settingsPath ++ ".backup" = settingsPath
        then FileState.present (data.take k)
        else if settingsPath ++ ".backup" = settingsPath ++ ".backup"
          then FileState.present old
          else fs (settingsPath ++ ".backup")) = FileState.present old
    rw [if_neg fun h => hne3 h.symm, if_pos rfl]
  have hstat2 : osStat
      (fun q => if q = settingsPath then FileState.present (data.take k)
        else if q = settingsPath ++ ".backup" then FileState.present old else fs q)
      (settingsPath ++ ".backup") = none := by
    unfold osStat
    rw [hbpval]
  have hread3 : osReadFile
      (fun q => if q = settingsPath then FileState.present (data.take k)
        else if q = settingsPath ++ ".backup" then FileState.present old else fs q)
      (settingsPath ++ ".backup") = .ok old := by
    unfold osReadFile
    rw [hbpval]
  have hw3 : (fun q => if q = settingsPath then FileState.present (data.take k)
      else if q = settingsPath ++ ".backup" then FileState.present old else fs q)
      settingsPath ≠ FileState.inaccessible := by
    show (if settingsPath = settingsPath
        then FileState.present (data.take k)
        else if settingsPath = settingsPath ++ ".backup"
          then FileState.present old
          else fs settingsPath) ≠ FileState.inaccessible
    rw [if_pos rfl]
    simp
  have hrestore := copyFile_success_eq
    (fun q => if q = settingsPath then FileState.present (data.take k)
      else if q = settingsPath ++ ".backup" then FileState.present old else fs q)
    (settingsPath ++ ".backup") settingsPath old hread3 hw3
  refine ⟨?_, ?_, ?_, ?_⟩
  · simp only [ApplyConfig, hget, hval, hstat, hbackup, applyCopy, hcopy2,
      hstat2, hrestore]
  · simp only [hcopy2]
    simp
  · simp only [ApplyConfig, hget, hval, hstat, hbackup, applyCopy, hcopy2,
      hstat2, hrestore]
    simp
  · simp only [ApplyConfig, hget, hval, hstat, hbackup, applyCopy, hcopy2,
      hstat2, hrestore]
    simp
    exact fun hn h => absurd h hn

/-- A filesystem holding `cfgB`'s stored content and an existing settings
file with distinct content. -/
def fsB2 : FS := fun p =>
  if p = "cd/configs/id-b.json" then .present bObj
  else if p = "settings.json" then .present [7] else .absent

/-- Witness for the amended C2 at a concrete failing apply with an
existing target and backup. -/
theorem applyConfig_plain_copy_witness :
    (ApplyConfig parse0 mB fsB2 "beta" "settings.json"
        .success (.failAfter 1) .success).1 = some (.applyFailed .writeFail) ∧
    (copyFile
        (fun q => if q = "settings.json" ++ ".backup" then FileState.present [7]
          else fsB2 q)
        cfgB.FilePath "settings.json" (.failAfter 1)).2 "settings.json"
      = .present (bObj.take 1) ∧
    (ApplyConfig parse0 mB fsB2 "beta" "settings.json"
        .success (.failAfter 1) .success).2 "settings.json" = .present [7] ∧
    (ApplyConfig parse0 mB fsB2 "beta" "settings.json"
        .success (.failAfter 1) .success).2 ("settings.json" ++ ".backup")
      = .present [7] :=
  applyConfig_plain_copy parse0 mB fsB2 "beta" "settings.json" cfgB bObj [7] 1
    rfl rfl rfl rfl (by decide) (by decide) (by decide)

/-! ## C3 — successful apply -/

/-- C3: a successful apply of a record with valid stored content leaves
the target byte-identical to the stored content; when a target file
existed, the backup afterwards holds the pre-apply target content; when no
target existed, the backup path is untouched (no backup created). -/
theorem applyConfig_success (parse : Bytes → ParseResult) (m : Manager)
    (fs : FS) (identifier settingsPath : String) (cfg : Config) (data : Bytes)
    (hget : GetConfig m identifier = some cfg)
    (hstored : fs cfg.FilePath = .present data)
    (hval : validateFile parse fs cfg.FilePath = none)
    (hne2 : cfg.FilePath ≠ settingsPath ++ ".backup")
    (hne3 : settingsPath ≠ settingsPath ++ ".backup")
    (hcase : (∃ old, fs settingsPath = .present old ∧
        fs (settingsPath ++ ".backup") ≠ .inaccessible) ∨
      fs settingsPath = .absent) :
    (ApplyConfig parse m fs identifier settingsPath
        .success .success .success).1 = none ∧
    (ApplyConfig parse m fs identifier settingsPath
        .success .success .success).2 settingsPath = .present data ∧
    (∀ old, fs settingsPath = .present old →
      (ApplyConfig parse m fs identifier settingsPath
          .success .success .success).2 (settingsPath ++ ".backup")
        = .present old) ∧
    (fs settingsPath = .absent →
      (ApplyConfig parse m fs identifier settingsPath
          .success .success .success).2 (settingsPath ++ ".backup")
        = fs (settingsPath ++ ".backup")) := by
  rcases hcase with ⟨old, hsettings, hbp⟩ | habs
  · have hstat : osStat fs settingsPath = none := by
      simp [osStat, hsettings]
    have hreadS : osReadFile fs settingsPath = .ok old := by
      simp [osReadFile, hsettings]
    have hbackup := copyFile_success_eq fs settingsPath
      (settingsPath ++ ".backup") old hreadS hbp
    have hread1 : osReadFile
        (fun q => if q = settingsPath ++ ".backup" then FileState.present old
          else fs q) cfg.FilePath = .ok data := by
      unfold osReadFile
      simp only [if_neg hne2, hstored]
    have hw1 : (fun q => if q = settingsPath ++ ".backup"
        then FileState.present old else fs q) settingsPath
        ≠ FileState.inaccessible := by
      show (if settingsPath = settingsPath ++ ".backup"
        then FileState.present old
        else fs settingsPath) ≠ FileState.inaccessible
      rw [if_neg hne3, hsettings]
      simp
    have hcopy2 := copyFile_success_eq
      (fun q => if q = settingsPath ++ ".backup" then FileState.present old
        else fs q)
      cfg.FilePath settingsPath data hread1 hw1
    refine ⟨?_, ?_, ?_, ?_⟩
    · simp only [ApplyConfig, hget, hval, hstat, hbackup, applyCopy, hcopy2]
    · simp only [ApplyConfig, hget, hval, hstat, hbackup, applyCopy, hcopy2]
      simp
    · intro old2 h2
      rw [hsettings] at h2
      cases h2
      simp only [ApplyConfig, hget, hval, hstat, hbackup, applyCopy, hcopy2]
      simp
      exact fun h => absurd h.symm hne3
    · intro habs2
      rw [hsettings] at habs2
      exact absurd habs2 (by simp)
  · have hstat : osStat fs settingsPath = some .notExist := by
      simp [osStat, habs]
    have hread1 : osReadFile fs cfg.FilePath = .ok data := by
      simp [osReadFile, hstored]
    have hw1 : fs settingsPath ≠ FileState.inaccessible := by
      rw [habs]
      simp
    have hcopy2 := copyFile_success_eq fs cfg.FilePath settingsPath data
      hread1 hw1
    refine ⟨?_, ?_, ?_, ?_⟩
    · simp only [ApplyConfig, hget, hval, hstat, applyCopy, hcopy2]
    · simp only [ApplyConfig, hget, hval, hstat, applyCopy, hcopy2]
      simp
    · intro old2 h2
      rw [habs] at h2
      exact absurd h2 (by simp)
    · intro _
      simp only [ApplyConfig, hget, hval, hstat, applyCopy, hcopy2]
      simp
      exact fun h => absurd h.symm hne3

/-- Witness for C3: applying `beta` with no pre-existing target creates
the target with the record's content and touches no backup. -/
theorem applyConfig_success_witness :
    (ApplyConfig parse0 mB fsB "beta" "settings.json"
        .success .success .success).1 = none ∧
    (ApplyConfig parse0 mB fsB "beta" "settings.json"
        .success .success .success).2 "settings.json" = .present bObj ∧
    (ApplyConfig parse0 mB fsB "beta" "settings.json"
        .success .success .success).2 ("settings.json" ++ ".backup")
      = fsB ("settings.json" ++ ".backup") :=
  have h := applyConfig_success parse0 mB fsB "beta" "settings.json" cfgB bObj
    rfl rfl rfl (by decide) (by decide) (Or.inr rfl)
  ⟨h.1, h.2.1, h.2.2.2 rfl⟩

/-! ## C8 — remove -/

/-- After `removeById`, no remaining record matches the removed record's
identity or name, provided identities and names were not shared with other
records and the list had no duplicate entries. -/
theorem removeById_no_match (cfg : Config) (i : String)
    (hi : i = cfg.ID ∨ i = cfg.Name) :
    ∀ cs : List Config,
      (∀ c2 ∈ cs, c2 ≠ cfg → c2.ID ≠ cfg.ID ∧ c2.Name ≠ cfg.ID ∧
        c2.ID ≠ cfg.Name ∧ c2.Name ≠ cfg.Name) →
      cs.Nodup →
      ∀ c2 ∈ removeById cs cfg.ID, c2.ID ≠ i ∧ c2.Name ≠ i := by
  intro cs
  induction cs with
  | nil =>
    intro _ _ c2 hc2
    simp [removeById] at hc2
  | cons c rest ih =>
    intro huniq hnodup c2 hc2
    rw [List.nodup_cons] at hnodup
    by_cases hcid : c.ID = cfg.ID
    · have hceq : c = cfg := by
        by_contra hne
        exact (huniq c (by simp) hne).1 hcid
      simp only [removeById, if_pos hcid] at hc2
      have hne2 : c2 ≠ cfg := by
        intro he
        exact hnodup.1 (hceq ▸ he ▸ hc2)
      have h4 := huniq c2 (List.mem_cons_of_mem _ hc2) hne2
      rcases hi with rfl | rfl
      · exact ⟨h4.1, h4.2.1⟩
      · exact ⟨h4.2.2.1, h4.2.2.2⟩
    · simp only [removeById, if_neg hcid] at hc2
      rcases List.mem_cons.mp hc2 with rfl | hc2b
      · have hne : c2 ≠ cfg := fun he => hcid (by rw [he])
        have h4 := huniq c2 (by simp) hne
        rcases hi with rfl | rfl
        · exact ⟨h4.1, h4.2.1⟩
        · exact ⟨h4.2.2.1, h4.2.2.2⟩
      · exact ih (fun c3 h hne => huniq c3 (List.mem_cons_of_mem _ h) hne)
          hnodup.2 c2 hc2b

/-- C8 amended: removing an existing record deletes its stored file
(tolerating an already-absent file as success) and drops the record; a
subsequent get on its identity or name fails with `NotFound` *provided*
no other record's identity or name equals either string.  The extra
cross-field proviso (no other record's name equals the removed record's
identity and vice versa) is forced by the counterexample: the code never
compares names against identities when records are created, so such
collisions are reachable, and then get finds the colliding record
instead of failing. -/
theorem removeConfig_removes (marshal : List Config → Bytes) (m : Manager)
    (fs : FS) (identifier : String) (cfg : Config)
    (hget : GetConfig m identifier = some cfg)
    (hfile : (∃ d, fs cfg.FilePath = .present d) ∨ fs cfg.FilePath = .absent)
    (huniq : ∀ c2 ∈ m.configs, c2 ≠ cfg → c2.ID ≠ cfg.ID ∧ c2.Name ≠ cfg.ID ∧
      c2.ID ≠ cfg.Name ∧ c2.Name ≠ cfg.Name)
    (hnodup : m.configs.Nodup)
    (hmp_ne : metadataPath m ≠ cfg.FilePath)
    (hmp : fs (metadataPath m) ≠ .inaccessible) :
    (RemoveConfig marshal m fs identifier .success).1 = none ∧
    GetConfig (RemoveConfig marshal m fs identifier .success).2.1 cfg.ID
      = none ∧
    GetConfig (RemoveConfig marshal m fs identifier .success).2.1 cfg.Name
      = none ∧
    (RemoveConfig marshal m fs identifier .success).2.2 cfg.FilePath
      = .absent := by
  have hmpEq2 : ∀ cs : List Config,
      metadataPath ⟨m.configDir, cs⟩ = metadataPath m := fun _ => rfl
  have hnomatchI := removeById_no_match cfg cfg.ID (Or.inl rfl) m.configs
    huniq hnodup
  have hnomatchN := removeById_no_match cfg cfg.Name (Or.inr rfl) m.configs
    huniq hnodup
  rcases hfile with ⟨d, hfd⟩ | hfd
  · have hrm := osRemove_present_eq fs cfg.FilePath d hfd
    have hfs1mp : (fun q => if q = cfg.FilePath then FileState.absent else fs q)
        (metadataPath m) ≠ FileState.inaccessible := by
      show (if metadataPath m = cfg.FilePath then FileState.absent
        else fs (metadataPath m)) ≠ FileState.inaccessible
      rw [if_neg hmp_ne]
      exact hmp
    have hsave := osWriteFile_success_eq
      (fun q => if q = cfg.FilePath then FileState.absent else fs q)
      (metadataPath m) (marshal (removeById m.configs cfg.ID)) hfs1mp
    refine ⟨?_, ?_, ?_, ?_⟩
    · simp only [RemoveConfig, hget, hrm, removeFinish, saveConfigs, hmpEq2,
        hsave]
    · simp only [RemoveConfig, hget, hrm, removeFinish, saveConfigs, hmpEq2,
        hsave]
      exact (findConfig_eq_none_iff _ _).mpr hnomatchI
    · simp only [RemoveConfig, hget, hrm, removeFinish, saveConfigs, hmpEq2,
        hsave]
      exact (findConfig_eq_none_iff _ _).mpr hnomatchN
    · simp only [RemoveConfig, hget, hrm, removeFinish, saveConfigs, hmpEq2,
        hsave]
      simp
      exact fun h => hmp_ne h.symm
  · have hrm : osRemove fs cfg.FilePath = (some .notExist, fs) := by
      simp [osRemove, hfd]
    have hsave := osWriteFile_success_eq fs (metadataPath m)
      (marshal (removeById m.configs cfg.ID)) hmp
    refine ⟨?_, ?_, ?_, ?_⟩
    · simp only [RemoveConfig, hget, hrm, removeFinish, saveConfigs, hmpEq2,
        hsave]
    · simp only [RemoveConfig, hget, hrm, removeFinish, saveConfigs, hmpEq2,
        hsave]
      exact (findConfig_eq_none_iff _ _).mpr hnomatchI
    · simp only [RemoveConfig, hget, hrm, removeFinish, saveConfigs, hmpEq2,
        hsave]
      exact (findConfig_eq_none_iff _ _).mpr hnomatchN
    · simp only [RemoveConfig, hget, hrm, removeFinish, saveConfigs, hmpEq2,
        hsave]
      simp [hfd]
      exact fun h => hmp_ne h.symm

/-- Witness for the amended C8: removing `beta` from the one-record
registry, where the proviso holds vacuously. -/
theorem removeConfig_removes_witness :
    (RemoveConfig marshal0 mB fsB "beta" .success).1 = none ∧
    GetConfig (RemoveConfig marshal0 mB fsB "beta" .success).2.1 cfgB.ID
      = none ∧
    GetConfig (RemoveConfig marshal0 mB fsB "beta" .success).2.1 cfgB.Name
      = none ∧
    (RemoveConfig marshal0 mB fsB "beta" .success).2.2 cfgB.FilePath
      = .absent :=
  removeConfig_removes marshal0 mB fsB "beta" cfgB rfl (Or.inl ⟨bObj, rfl⟩)
    (by decide) (by decide) (by decide) (by decide)

/-- A record whose identity collides with nothing yet. -/
def cfgU : Config := ⟨"u-id", "gamma", "", "t0", "cd/configs/u-id.json"⟩

/-- A record whose *name* equals `cfgU`'s identity — reachable, since the
duplicate check at creation compares names against names only. -/
def cfgImp : Config := ⟨"other-id", "u-id", "", "t1", "cd/configs/other-id.json"⟩

/-- A registry holding both colliding records. -/
def mColl : Manager := ⟨"cd", [cfgU, cfgImp]⟩

/-- A filesystem holding `cfgU`'s stored content. -/
def fsColl : FS :=
  fun p => if p = "cd/configs/u-id.json" then .present bObj else .absent

/-- C8 counterexample: in a registry where another record's name equals
the removed record's identity, remove succeeds and deletes the stored
file, yet a subsequent get on the removed record's identity returns that
other record instead of failing with `NotFound`. -/
theorem removeConfig_get_after_remove_counterexample :
    (RemoveConfig marshal0 mColl fsColl "gamma" .success).1 = none ∧
    cfgU.ID = "u-id" ∧ cfgImp.Name = "u-id" ∧ cfgImp ≠ cfgU ∧
    GetConfig (RemoveConfig marshal0 mColl fsColl "gamma" .success).2.1 "u-id"
      = some cfgImp ∧
    (RemoveConfig marshal0 mColl fsColl "gamma" .success).2.2
        "cd/configs/u-id.json" = .absent :=
  ⟨rfl, rfl, rfl, by decide, rfl, rfl⟩
